import Mathlib

/-!
Verification development for the floating-number box plugin
(box manager, note-data resolver, and widget drag/resize logic).

The definitions below are shallow embeddings of the TypeScript sources:
FloatingBoxManager.ts (registry, createBox, updateOneBoxSettings,
getTodayNumber and the task/word counters), FloatingBox.ts (the widget
pointer state machine: detectResizeEdge, onBoxMouseDown, onDragStart,
onDragMove, onDragEnd, onResizing, onResizeEnd, updateSettings) and
settings.ts (BoxSettings).  JavaScript numbers are modelled as rationals,
JavaScript strings as Lean strings or character lists, and the regex
calls are modelled by explicit left-to-right scans over the character
list that mirror the regex engine behaviour on the concrete patterns the
code uses.
-/

set_option autoImplicit false

namespace FloatingNumber

/-- JavaScript Math.round: round half toward positive infinity. -/
def jsRound (q : ℚ) : ℚ := ((⌊q + 1/2⌋ : ℤ) : ℚ)

/-! ### Data model (settings.ts) -/

/-- The dataType union of BoxSettings in settings.ts. -/
inductive DataType where
  | completedTasks
  | uncompletedTasks
  | wordCount
  | characterCount
  | sentenceCount
  | pageCount
  | dataview
  | customjs
deriving DecidableEq

/-- A position record (position field of BoxSettings). -/
structure Pos where
  x : ℚ
  y : ℚ
deriving DecidableEq

/-- BoxSettings from settings.ts. -/
structure BoxSettings where
  position : Pos
  zIndex : ℚ
  backgroundColor : String
  customBackgroundColor : String
  textColor : String
  customTextColor : String
  fontSize : ℚ
  padding : ℚ
  dataType : DataType
  pageWordsPerPage : ℚ
  dataviewField : String
  noDataMessage : String
  isBold : Bool
  useDailyNote : Bool
  customNotePath : String
  customScript : String
deriving DecidableEq

/-- A Partial(BoxSettings) record as used by updateOneBoxSettings: each
field is optionally present.  The object spread in updateSettings
replaces exactly the present fields. -/
structure BoxSettingsPatch where
  position : Option Pos := none
  zIndex : Option ℚ := none
  backgroundColor : Option String := none
  customBackgroundColor : Option String := none
  textColor : Option String := none
  customTextColor : Option String := none
  fontSize : Option ℚ := none
  padding : Option ℚ := none
  dataType : Option DataType := none
  pageWordsPerPage : Option ℚ := none
  dataviewField : Option String := none
  noDataMessage : Option String := none
  isBold : Option Bool := none
  useDailyNote : Option Bool := none
  customNotePath : Option String := none
  customScript : Option String := none
deriving DecidableEq

/-- The empty Partial(BoxSettings), the literal empty object. -/
def emptyPatch : BoxSettingsPatch := {}

/-- FloatingBox.updateSettings merge step:
this.settings = spread of this.settings then newSettings. -/
def mergeSettings (s : BoxSettings) (p : BoxSettingsPatch) : BoxSettings where
  position := p.position.getD s.position
  zIndex := p.zIndex.getD s.zIndex
  backgroundColor := p.backgroundColor.getD s.backgroundColor
  customBackgroundColor := p.customBackgroundColor.getD s.customBackgroundColor
  textColor := p.textColor.getD s.textColor
  customTextColor := p.customTextColor.getD s.customTextColor
  fontSize := p.fontSize.getD s.fontSize
  padding := p.padding.getD s.padding
  dataType := p.dataType.getD s.dataType
  pageWordsPerPage := p.pageWordsPerPage.getD s.pageWordsPerPage
  dataviewField := p.dataviewField.getD s.dataviewField
  noDataMessage := p.noDataMessage.getD s.noDataMessage
  isBold := p.isBold.getD s.isBold
  useDailyNote := p.useDailyNote.getD s.useDailyNote
  customNotePath := p.customNotePath.getD s.customNotePath
  customScript := p.customScript.getD s.customScript

/-! ### Note data resolver (FloatingBoxManager.ts)

countCompletedTasks and countUncompletedTasks run the JavaScript
global regexes of the source, namely a hyphen, a space, an opening
bracket, x or space, a closing bracket, a space, then one or more
characters other than a line terminator, over the note content and
count the matches.  The patterns are not anchored to line starts.  We
model the regex engine by a left-to-right scan: at each index the
engine tries to match the six marker characters followed by at least
one character that is not a line terminator; on success the greedy
tail consumes up to the next line terminator and the scan resumes
after it, on failure the scan advances one character.  The scan
carries a fuel argument (initialised to the length of the input) so
that it is structurally recursive and hence computable by the
kernel. -/

/-- The JavaScript LineTerminator set, which the regex dot excludes:
LF, CR, LINE SEPARATOR and PARAGRAPH SEPARATOR. -/
def jsLineTerm (c : Char) : Bool :=
  c == '\n' || c == '\r' || c == Char.ofNat 0x2028 || c == Char.ofNat 0x2029

/-- The JavaScript whitespace set stripped by String.prototype.trim
and matched by the backslash-s class: tab, LF, VT, FF, CR, space,
NBSP, OGHAM SPACE MARK, the EN QUAD through HAIR SPACE range, the
line terminators, NARROW NBSP, MEDIUM MATHEMATICAL SPACE, IDEOGRAPHIC
SPACE and the BOM. -/
def jsWhitespace (c : Char) : Bool :=
  c == '\t' || c == '\n' || c == Char.ofNat 0x0B || c == Char.ofNat 0x0C ||
  c == '\r' || c == ' ' || c == Char.ofNat 0xA0 || c == Char.ofNat 0x1680 ||
  (decide (Char.ofNat 0x2000 ≤ c) && decide (c ≤ Char.ofNat 0x200A)) ||
  c == Char.ofNat 0x2028 || c == Char.ofNat 0x2029 || c == Char.ofNat 0x202F ||
  c == Char.ofNat 0x205F || c == Char.ofNat 0x3000 || c == Char.ofNat 0xFEFF

/-- One regex scan step count, fuelled.  marker is the literal part of
the pattern, the tail is the greedy dot-plus. -/
def scanCountAux (marker : List Char) : Nat → List Char → Nat
  | 0, _ => 0
  | _ + 1, [] => 0
  | fuel + 1, c :: rest =>
    if marker.isPrefixOf (c :: rest) then
      match (c :: rest).drop marker.length with
      | d :: t =>
        if jsLineTerm d then scanCountAux marker fuel rest
        else 1 + scanCountAux marker fuel (t.dropWhile (fun ch => !jsLineTerm ch))
      | [] => scanCountAux marker fuel rest
    else scanCountAux marker fuel rest

/-- Number of matches of the unanchored pattern marker-then-dot-plus in
the content, as content.match(regex).length in the source. -/
def scanCount (marker : List Char) (l : List Char) : Nat :=
  scanCountAux marker l.length l

/-- The literal characters of the completed-task pattern. -/
def completedMarker : List Char := "- [x] ".data

/-- The literal characters of the uncompleted-task pattern. -/
def uncompletedMarker : List Char := "- [ ] ".data

/-- FloatingBoxManager.countCompletedTasks. -/
def countCompletedTasks (content : String) : Nat :=
  scanCount completedMarker content.data

/-- FloatingBoxManager.countUncompletedTasks. -/
def countUncompletedTasks (content : String) : Nat :=
  scanCount uncompletedMarker content.data

/-- FloatingBoxManager.countWords: content.split on whitespace runs,
filtered to nonempty tokens, counted.  Equivalently the number of
maximal nonempty runs of non-whitespace characters (the JavaScript
backslash-s class), computed here with an in-word flag so the
recursion is structural. -/
def countWordsAux : Bool → List Char → Nat
  | _, [] => 0
  | inWord, c :: rest =>
    if jsWhitespace c then countWordsAux false rest
    else (if inWord then 0 else 1) + countWordsAux true rest

/-- FloatingBoxManager.countWords over a string. -/
def countWords (content : String) : Nat := countWordsAux false content.data

/-- The dataview branch of getTodayNumber builds the regex from the
field name followed by two colons, a space and a captured dot-plus,
and takes the first match.  We model the pattern for field names that
contain no regex metacharacters (the regexSafe predicate below): the
scan looks for the first index at which the field name, two colons and
a space occur followed by at least one character that is not a line
terminator, and captures greedily up to the next line terminator. -/
def dvFirstCapture (field : List Char) : List Char → Option (List Char)
  | [] => none
  | c :: rest =>
    if (field ++ ":: ".data).isPrefixOf (c :: rest) then
      match (c :: rest).drop (field ++ ":: ".data).length with
      | d :: t =>
        if jsLineTerm d then dvFirstCapture field rest
        else some (d :: t.takeWhile (fun ch => !jsLineTerm ch))
      | [] => dvFirstCapture field rest
    else dvFirstCapture field rest

/-- Regex metacharacters; a field name avoiding them is matched
literally by the JavaScript regex, as dvFirstCapture does. -/
def regexMeta : List Char :=
  ['\\', '^', '$', '.', '|', '?', '*', '+', '(', ')', '[', ']', '\x7b', '\x7d']

/-- Field names on which the dvFirstCapture model is exact. -/
def regexSafe (field : String) : Bool :=
  field.data.all (fun c => !(regexMeta.contains c))

/-- JavaScript String.prototype.trim, over the character list: strip
the JavaScript whitespace set from both ends. -/
def jsTrim (l : List Char) : List Char :=
  ((l.dropWhile jsWhitespace).reverse.dropWhile jsWhitespace).reverse

/-- FloatingBoxManager.getTodayNumber.  The note resolution
(plugin.getTodayDailyNote and the vault read) lives outside this file
in the host glue; its outcome enters as the dailyNote argument, none
when the daily-notes feature is disabled or the note is missing, some
content when the note was read.  On none the source returns the
literal string N/A.  The switch on dataType handles the four
implemented kinds; every other dataType falls through to the default
branch returning the configured noDataMessage. -/
def getTodayNumber (dailyNote : Option String) (settings : BoxSettings) : String :=
  match dailyNote with
  | none => "N/A"
  | some content =>
    match settings.dataType with
    | .completedTasks => toString (countCompletedTasks content)
    | .uncompletedTasks => toString (countUncompletedTasks content)
    | .wordCount => toString (countWords content)
    | .dataview =>
      match dvFirstCapture settings.dataviewField.data content.data with
      | some v => String.mk (jsTrim v)
      | none => settings.noDataMessage
    | _ => settings.noDataMessage

/-! ### Specification-side line counting (for claim C2)

The claims describe the task counters as counting lines that match an
anchored per-line pattern.  linesOf splits the content at JavaScript
line terminators, exactly the boundaries at which the multiline regex
anchors of the claimed pattern delimit lines; lineHasMarker states
that a line contains the marker somewhere with at least one character
after it, which is what the unanchored source pattern counts per
line; anchoredTaskCount is the count the claim text asks for, with
the marker anchored at the line start. -/

/-- Split a character list at line terminators; the result always has
one more entry than the number of terminator characters. -/
def linesOf : List Char → List (List Char)
  | [] => [[]]
  | c :: rest =>
    if jsLineTerm c then [] :: linesOf rest
    else
      match linesOf rest with
      | [] => [[c]]
      | l :: ls => (c :: l) :: ls

/-- A line contains the marker at some position with at least one
further character after it. -/
def lineHasMarker (marker : List Char) : List Char → Bool
  | [] => false
  | c :: rest =>
    (marker.isPrefixOf (c :: rest) && decide (marker.length < (c :: rest).length))
      || lineHasMarker marker rest

/-- Number of lines of l containing the marker with a nonempty tail. -/
def linesCount (marker : List Char) (l : List Char) : Nat :=
  ((linesOf l).filter (fun line => lineHasMarker marker line)).length

/-- The count claimed by the specification sentence for C2: lines that
match the marker anchored at the line start, with a nonempty tail
running to the line end. -/
def anchoredTaskCount (marker : List Char) (content : String) : Nat :=
  ((linesOf content.data).filter
    (fun line => marker.isPrefixOf line && decide (marker.length < line.length))).length

/-- A sample BoxSettings record, the default box of settings.ts with
the data selection fields as given. -/
def mkSettings (dt : DataType) (field msg : String) : BoxSettings :=
  { position := ⟨100, 100⟩, zIndex := 100, backgroundColor := "default",
    customBackgroundColor := "", textColor := "default", customTextColor := "",
    fontSize := 16, padding := 8, dataType := dt, pageWordsPerPage := 250,
    dataviewField := field, noDataMessage := msg, isBold := true,
    useDailyNote := true, customNotePath := "", customScript := "" }

/-! ### Lemmas relating the regex scan to per-line counting -/

theorem length_dropWhile_le (p : Char → Bool) (l : List Char) :
    (l.dropWhile p).length ≤ l.length := by
  induction l with
  | nil => simp
  | cons c rest ih =>
    by_cases h : p c
    · simp only [List.dropWhile, h]
      exact Nat.le_succ_of_le ih
    · simp [List.dropWhile, h]

theorem dropWhile_head_false {p : Char → Bool} {l : List Char} {x : Char}
    {t : List Char} (h : l.dropWhile p = x :: t) : p x = false := by
  induction l with
  | nil => simp at h
  | cons c rest ih =>
    by_cases hc : p c
    · exact ih (by simpa [List.dropWhile, hc] using h)
    · simp only [List.dropWhile, hc] at h
      cases h
      simpa using hc

theorem mem_takeWhile_sat {p : Char → Bool} {l : List Char} {a : Char}
    (h : a ∈ l.takeWhile p) : p a = true := by
  induction l with
  | nil => simp at h
  | cons c rest ih =>
    by_cases hc : p c
    · simp only [List.takeWhile, hc] at h
      rcases List.mem_cons.mp h with h | h
      · subst h; exact hc
      · exact ih h
    · simp [List.takeWhile, hc] at h

theorem linesOf_no_term {l : List Char} (h : ∀ c ∈ l, jsLineTerm c = false) :
    linesOf l = [l] := by
  induction l with
  | nil => rfl
  | cons c rest ih =>
    have hc : jsLineTerm c = false := h c (List.mem_cons_self c rest)
    have hrest : linesOf rest = [rest] := ih (fun x hx => h x (List.mem_cons_of_mem c hx))
    simp [linesOf, hc, hrest]

theorem linesOf_append_term {a : List Char} (b : List Char) {e : Char}
    (he : jsLineTerm e = true) (h : ∀ c ∈ a, jsLineTerm c = false) :
    linesOf (a ++ e :: b) = a :: linesOf b := by
  induction a with
  | nil => simp [linesOf, he]
  | cons c a' ih =>
    have hc : jsLineTerm c = false := h c (List.mem_cons_self c a')
    have ha' : linesOf (a' ++ e :: b) = a' :: linesOf b :=
      ih (fun x hx => h x (List.mem_cons_of_mem c hx))
    simp [linesOf, hc, ha']

theorem lineHasMarker_short {marker l : List Char} (h : l.length ≤ marker.length) :
    lineHasMarker marker l = false := by
  induction l with
  | nil => rfl
  | cons c rest ih =>
    have h2 : rest.length ≤ marker.length := by
      simp only [List.length_cons] at h; omega
    have h1 : decide (marker.length < (c :: rest).length) = false := by
      simp only [List.length_cons, decide_eq_false_iff_not]
      simp only [List.length_cons] at h; omega
    rw [show lineHasMarker marker (c :: rest) =
        ((marker.isPrefixOf (c :: rest) &&
          decide (marker.length < (c :: rest).length)) ||
          lineHasMarker marker rest) from rfl, h1, ih h2]
    simp

theorem lineHasMarker_of_prefix {marker l : List Char}
    (h1 : marker.isPrefixOf l = true) (h2 : marker.length < l.length) :
    lineHasMarker marker l = true := by
  cases l with
  | nil => simp at h2
  | cons c rest =>
    simp only [lineHasMarker, h1, Bool.true_and]
    simp only [List.length_cons] at h2
    simp [Or.inl h2]

theorem lineHasMarker_cons_eq {marker w rest : List Char} {c : Char}
    (htw : w <+: rest) (hpre : ¬ marker.isPrefixOf (c :: rest) = true) :
    lineHasMarker marker (c :: w) = lineHasMarker marker w := by
  have hfalse : marker.isPrefixOf (c :: w) = false := by
    by_contra hcontra
    have h1 : marker.isPrefixOf (c :: w) = true := by
      cases h : marker.isPrefixOf (c :: w)
      · exact absurd h hcontra
      · rfl
    have h2 : marker <+: (c :: w) := List.isPrefixOf_iff_prefix.mp h1
    have h3 : (c :: w) <+: (c :: rest) := List.cons_prefix_cons.mpr ⟨rfl, htw⟩
    exact hpre (List.isPrefixOf_iff_prefix.mpr (h2.trans h3))
  simp [lineHasMarker, hfalse]

theorem filter_linesCons_true {m l : List Char} {L : List (List Char)}
    (h : lineHasMarker m l = true) :
    ((l :: L).filter (fun x => lineHasMarker m x)).length =
      1 + (L.filter (fun x => lineHasMarker m x)).length := by
  simp [List.filter, h, Nat.add_comm]

theorem filter_linesCons_false {m l : List Char} {L : List (List Char)}
    (h : lineHasMarker m l = false) :
    ((l :: L).filter (fun x => lineHasMarker m x)).length =
      (L.filter (fun x => lineHasMarker m x)).length := by
  simp [List.filter, h]

theorem scanCountAux_step_match {marker : List Char} {fuel : Nat} {c : Char}
    {rest d_t : List Char} (hpre : marker.isPrefixOf (c :: rest) = true)
    (hdrop : (c :: rest).drop marker.length = d_t) {d : Char} {t : List Char}
    (hdt : d_t = d :: t) (hd : jsLineTerm d = false) :
    scanCountAux marker (fuel + 1) (c :: rest) =
      1 + scanCountAux marker fuel (t.dropWhile (fun ch => !jsLineTerm ch)) := by
  subst hdt
  simp [scanCountAux, hpre, hdrop, hd]

theorem scanCountAux_step_term {marker : List Char} {fuel : Nat} {c : Char}
    {rest d_t : List Char} (hpre : marker.isPrefixOf (c :: rest) = true)
    (hdrop : (c :: rest).drop marker.length = d_t) {d : Char} {t : List Char}
    (hdt : d_t = d :: t) (hd : jsLineTerm d = true) :
    scanCountAux marker (fuel + 1) (c :: rest) = scanCountAux marker fuel rest := by
  subst hdt
  simp [scanCountAux, hpre, hdrop, hd]

theorem scanCountAux_step_end {marker : List Char} {fuel : Nat} {c : Char}
    {rest : List Char} (hpre : marker.isPrefixOf (c :: rest) = true)
    (hdrop : (c :: rest).drop marker.length = []) :
    scanCountAux marker (fuel + 1) (c :: rest) = scanCountAux marker fuel rest := by
  simp [scanCountAux, hpre, hdrop]

theorem scanCountAux_step_skip {marker : List Char} {fuel : Nat} {c : Char}
    {rest : List Char} (hpre : ¬ marker.isPrefixOf (c :: rest) = true) :
    scanCountAux marker (fuel + 1) (c :: rest) = scanCountAux marker fuel rest := by
  simp [scanCountAux, hpre]

/-- The regex scan of the unanchored task pattern counts exactly the
lines (as delimited by JavaScript line terminators) that contain the
marker followed by at least one character, for any marker free of line
terminator characters. -/
theorem scanCountAux_eq_linesCount {marker : List Char}
    (hterm : ∀ x ∈ marker, jsLineTerm x = false) :
    ∀ fuel l, l.length ≤ fuel →
      scanCountAux marker fuel l = linesCount marker l := by
  intro fuel
  induction fuel with
  | zero =>
    intro l hl
    have : l = [] := List.length_eq_zero.mp (Nat.le_zero.mp hl)
    subst this
    simp [scanCountAux, linesCount, linesOf, lineHasMarker]
  | succ fuel ih =>
    intro l hl
    cases l with
    | nil => simp [scanCountAux, linesCount, linesOf, lineHasMarker]
    | cons c rest =>
      by_cases hpre : marker.isPrefixOf (c :: rest) = true
      · have hp : marker <+: (c :: rest) := List.isPrefixOf_iff_prefix.mp hpre
        obtain ⟨z, hz⟩ := hp
        have hdrop : (c :: rest).drop marker.length = z := by
          rw [← hz]; exact List.drop_left marker z
        cases z with
        | nil =>
          -- the whole input is exactly the marker; no match anywhere
          rw [scanCountAux_step_end hpre hdrop]
          have hrl : rest.length ≤ fuel := by
            simp only [List.length_cons] at hl; omega
          rw [ih rest hrl]
          have hmarker_eq : marker = c :: rest := by
            simpa using hz
          have hnlc : ∀ x ∈ c :: rest, jsLineTerm x = false := by
            intro x hx
            rw [← hmarker_eq] at hx
            exact hterm x hx
          have hnlr : ∀ x ∈ rest, jsLineTerm x = false := fun x hx =>
            hnlc x (List.mem_cons_of_mem c hx)
          have hs1 : lineHasMarker marker (c :: rest) = false :=
            lineHasMarker_short (le_of_eq (congrArg List.length hmarker_eq).symm)
          have hs2 : lineHasMarker marker rest = false :=
            lineHasMarker_short (by rw [hmarker_eq]; simp)
          unfold linesCount
          rw [linesOf_no_term hnlc, linesOf_no_term hnlr,
              filter_linesCons_false (L := []) hs2,
              filter_linesCons_false (L := []) hs1]
        | cons d t =>
          cases hd : jsLineTerm d with
          | true =>
            rw [scanCountAux_step_term hpre hdrop rfl hd]
            have hrl : rest.length ≤ fuel := by
              simp only [List.length_cons] at hl; omega
            rw [ih rest hrl]
            -- c :: rest = marker ++ terminator :: t
            cases marker with
            | nil =>
              simp only [List.nil_append] at hz
              injection hz with h1 h2
              subst h1
              subst h2
              have hlnl : linesOf (d :: t) = [] :: linesOf t := by
                simp [linesOf, hd]
              unfold linesCount
              rw [hlnl, filter_linesCons_false (m := ([] : List Char))
                    (l := ([] : List Char)) (L := linesOf t) rfl]
            | cons mh mt =>
              simp only [List.cons_append] at hz
              injection hz with h1 h2
              subst h1
              subst h2
              have hnlmt : ∀ x ∈ mt, jsLineTerm x = false := fun x hx =>
                hterm x (List.mem_cons_of_mem mh hx)
              have e1 : linesOf (mt ++ d :: t) = mt :: linesOf t :=
                linesOf_append_term t hd hnlmt
              have e2 : linesOf (mh :: (mt ++ d :: t)) =
                  (mh :: mt) :: linesOf t := by
                have h := linesOf_append_term (a := mh :: mt) t hd hterm
                simpa using h
              have hs_mt : lineHasMarker (mh :: mt) mt = false :=
                lineHasMarker_short (by simp)
              have hs_m : lineHasMarker (mh :: mt) (mh :: mt) = false :=
                lineHasMarker_short (Nat.le_refl _)
              unfold linesCount
              rw [e1, e2, filter_linesCons_false hs_mt,
                  filter_linesCons_false hs_m]
          | false =>
            rw [scanCountAux_step_match hpre hdrop rfl hd]
            have htl : (t.dropWhile (fun ch => !jsLineTerm ch)).length ≤ fuel := by
              have h1 := length_dropWhile_le (fun ch => !jsLineTerm ch) t
              have h2 : (c :: rest).length = marker.length + (d :: t).length := by
                rw [← hz]; simp
              simp only [List.length_cons] at hl h2
              omega
            rw [ih _ htl]
            -- split t at its first line terminator
            have hsplit : t.takeWhile (fun ch => !jsLineTerm ch) ++
                t.dropWhile (fun ch => !jsLineTerm ch) = t :=
              List.takeWhile_append_dropWhile _ _
            set tw := t.takeWhile (fun ch => !jsLineTerm ch) with htw
            set dw := t.dropWhile (fun ch => !jsLineTerm ch) with hdw
            have hnl_tw : ∀ x ∈ tw, jsLineTerm x = false := by
              intro x hx
              have := mem_takeWhile_sat (p := fun ch => !jsLineTerm ch) (htw ▸ hx)
              simpa using this
            have hline_true : lineHasMarker marker (marker ++ d :: tw) = true := by
              apply lineHasMarker_of_prefix
              · exact List.isPrefixOf_iff_prefix.mpr ⟨d :: tw, rfl⟩
              · simp
            cases hdwe : dw with
            | nil =>
              -- no line terminator at or after the match: single line input
              have ht_eq : t = tw := by rw [← hsplit, hdwe, List.append_nil]
              have hnl_all : ∀ x ∈ c :: rest, jsLineTerm x = false := by
                intro x hx
                rw [← hz] at hx
                rcases List.mem_append.mp hx with hx | hx
                · exact hterm x hx
                · rcases List.mem_cons.mp hx with hx | hx
                  · exact hx ▸ hd
                  · rw [ht_eq] at hx; exact hnl_tw x hx
              unfold linesCount
              rw [linesOf_no_term hnl_all]
              have hlast : linesOf ([] : List Char) = [[]] := rfl
              rw [hlast,
                  filter_linesCons_false (m := marker)
                    (l := ([] : List Char)) (L := ([] : List (List Char))) rfl,
                  filter_linesCons_true (m := marker)
                    (L := ([] : List (List Char)))
                    (by rw [← hz, ht_eq]; exact hline_true)]
            | cons e b =>
              have he : jsLineTerm e = true := by
                have := dropWhile_head_false (p := fun ch => !jsLineTerm ch)
                  (t := b) (x := e) (hdw ▸ hdwe)
                simpa using this
              have hlc : c :: rest = (marker ++ d :: tw) ++ e :: b := by
                rw [← hz, ← hsplit, hdwe]
                simp
              have hnl_first : ∀ x ∈ marker ++ d :: tw, jsLineTerm x = false := by
                intro x hx
                rcases List.mem_append.mp hx with hx | hx
                · exact hterm x hx
                · rcases List.mem_cons.mp hx with hx | hx
                  · exact hx ▸ hd
                  · exact hnl_tw x hx
              have hdwl : linesOf (e :: b) = [] :: linesOf b := by
                simp [linesOf, he]
              unfold linesCount
              rw [hlc, linesOf_append_term b he hnl_first, hdwl,
                  filter_linesCons_true (m := marker) hline_true,
                  filter_linesCons_false (m := marker)
                    (l := ([] : List Char)) rfl]
      · rw [scanCountAux_step_skip hpre]
        have hrl : rest.length ≤ fuel := by
          simp only [List.length_cons] at hl; omega
        rw [ih rest hrl]
        cases hc : jsLineTerm c with
        | true =>
          unfold linesCount
          have hln : linesOf (c :: rest) = [] :: linesOf rest := by
            simp [linesOf, hc]
          rw [hln, filter_linesCons_false (m := marker)
                (l := ([] : List Char)) rfl]
        | false =>
          have hsplit : rest.takeWhile (fun ch => !jsLineTerm ch) ++
              rest.dropWhile (fun ch => !jsLineTerm ch) = rest :=
            List.takeWhile_append_dropWhile _ _
          set tw := rest.takeWhile (fun ch => !jsLineTerm ch) with htw
          set dw := rest.dropWhile (fun ch => !jsLineTerm ch) with hdw
          have hnl_tw : ∀ x ∈ tw, jsLineTerm x = false := by
            intro x hx
            have := mem_takeWhile_sat (p := fun ch => !jsLineTerm ch) (htw ▸ hx)
            simpa using this
          have htwpre : tw <+: rest := htw ▸ List.takeWhile_prefix _
          cases hdwe : dw with
          | nil =>
            have hrest_eq : rest = tw := by rw [← hsplit, hdwe, List.append_nil]
            have hnl_all : ∀ x ∈ c :: rest, jsLineTerm x = false := by
              intro x hx
              rcases List.mem_cons.mp hx with hx | hx
              · exact hx ▸ hc
              · rw [hrest_eq] at hx; exact hnl_tw x hx
            have hnl_rest : ∀ x ∈ rest, jsLineTerm x = false := fun x hx =>
              hnl_all x (List.mem_cons_of_mem c hx)
            unfold linesCount
            rw [linesOf_no_term hnl_all, linesOf_no_term hnl_rest]
            have hhm : lineHasMarker marker (c :: rest) = lineHasMarker marker rest := by
              have := lineHasMarker_cons_eq (w := rest) (c := c)
                (List.prefix_refl rest) hpre
              exact this
            cases hval : lineHasMarker marker rest with
            | false =>
              rw [filter_linesCons_false (m := marker) (hhm.trans hval),
                  filter_linesCons_false (m := marker) hval]
            | true =>
              rw [filter_linesCons_true (m := marker) (hhm.trans hval),
                  filter_linesCons_true (m := marker) hval]
          | cons e b =>
            have he : jsLineTerm e = true := by
              have := dropWhile_head_false (p := fun ch => !jsLineTerm ch)
                (t := b) (x := e) (hdw ▸ hdwe)
              simpa using this
            have hrest_split : rest = tw ++ e :: b := by
              rw [← hsplit, hdwe]
            have hcrest : c :: rest = (c :: tw) ++ e :: b := by
              rw [hrest_split]; rfl
            have hnl_ctw : ∀ x ∈ c :: tw, jsLineTerm x = false := by
              intro x hx
              rcases List.mem_cons.mp hx with hx | hx
              · exact hx ▸ hc
              · exact hnl_tw x hx
            unfold linesCount
            rw [hcrest, linesOf_append_term b he hnl_ctw]
            rw [hrest_split, linesOf_append_term b he hnl_tw]
            have hhm : lineHasMarker marker (c :: tw) = lineHasMarker marker tw :=
              lineHasMarker_cons_eq htwpre hpre
            cases hval : lineHasMarker marker tw with
            | false =>
              rw [filter_linesCons_false (m := marker) (hhm.trans hval),
                  filter_linesCons_false (m := marker) hval]
            | true =>
              rw [filter_linesCons_true (m := marker) (hhm.trans hval),
                  filter_linesCons_true (m := marker) hval]

/-- scanCount agrees with per-line counting for markers free of line
terminator characters. -/
theorem scanCount_eq_linesCount {marker : List Char}
    (hterm : ∀ x ∈ marker, jsLineTerm x = false)
    (l : List Char) : scanCount marker l = linesCount marker l :=
  scanCountAux_eq_linesCount hterm l.length l (Nat.le_refl _)

/-! ### Claims C1, C2, C6 about the note data resolver -/

/-- C1 counterexample: with the no-data message configured to a string
other than N/A, getTodayNumber on an unresolvable note returns the
hardcoded N/A, not the configured message, refuting the claim that it
returns settings.noDataMessage. -/
theorem claim_C1_counterexample :
    getTodayNumber none (mkSettings .completedTasks "" "nothing yet") ≠
      (mkSettings .completedTasks "" "nothing yet").noDataMessage := by
  decide

/-- C1 (amended): for every BoxSettings, when the target note cannot be
resolved (daily-notes feature disabled or note missing), getTodayNumber
returns the fixed string N/A, regardless of the configured
noDataMessage. -/
theorem claim_C1 : ∀ s : BoxSettings, getTodayNumber none s = "N/A" :=
  fun _ => rfl

/-- C2 counterexample: on a note whose only line is the completed-task
marker preceded by a space, the displayed value is 1 while the count of
lines matching the anchored pattern is 0, refuting the claim as
stated. -/
theorem claim_C2_counterexample :
    getTodayNumber (some " - [x] a") (mkSettings .completedTasks "" "N/A") ≠
      toString (anchoredTaskCount completedMarker " - [x] a") := by
  decide

/-- C2 (amended): for every note text, when dataType is completedTasks
the displayed value equals the number of lines of the note, delimited
by any JavaScript line terminator (LF, CR, LINE or PARAGRAPH
SEPARATOR, the boundaries at which the multiline anchors of the
claimed pattern delimit lines), that contain the substring
hyphen-space-bracket-x-bracket-space followed by at least one further
character anywhere in the line (the source pattern is not anchored),
rendered as a decimal string; analogously uncompletedTasks counts
lines containing the unchecked marker with a nonempty tail. -/
theorem claim_C2 : ∀ (content : String) (s : BoxSettings),
    (s.dataType = DataType.completedTasks →
      getTodayNumber (some content) s =
        toString (linesCount completedMarker content.data))
    ∧ (s.dataType = DataType.uncompletedTasks →
      getTodayNumber (some content) s =
        toString (linesCount uncompletedMarker content.data)) := by
  intro content s
  constructor
  · intro h
    simp only [getTodayNumber, h, countCompletedTasks]
    rw [scanCount_eq_linesCount (by decide)]
  · intro h
    simp only [getTodayNumber, h, countUncompletedTasks]
    rw [scanCount_eq_linesCount (by decide)]

/-- C2 witness: the amended theorem applied at a concrete note with an
indented completed task, a carriage-return line break and a second
completed task. -/
theorem claim_C2_witness :
    getTodayNumber (some " - [x] a\r- [x] b\n- [ ] c")
        (mkSettings .completedTasks "" "N/A") =
      toString (linesCount completedMarker " - [x] a\r- [x] b\n- [ ] c".data) :=
  (claim_C2 _ _).1 rfl

/-- C6: dataview extraction returns the trimmed captured value of the
first occurrence of the field-name pattern, and the configured no-data
message when no occurrence exists; in particular a note containing the
line MeditationMinutes:: 15 displays 15, also when later occurrences
exist and also when the line ends in a carriage return (the dot of the
source pattern stops at every JavaScript line terminator).  The
general conjuncts are scoped to field names free of regex
metacharacters, where the scan model is exact. -/
theorem claim_C6 :
    (∀ s : BoxSettings, s.dataType = DataType.dataview →
      s.dataviewField = "MeditationMinutes" →
      getTodayNumber (some "MeditationMinutes:: 15\n") s = "15")
    ∧ (∀ (s : BoxSettings) (content : String),
        s.dataType = DataType.dataview → regexSafe s.dataviewField = true →
        dvFirstCapture s.dataviewField.data content.data = none →
        getTodayNumber (some content) s = s.noDataMessage)
    ∧ (∀ (s : BoxSettings) (content : String) (v : List Char),
        s.dataType = DataType.dataview → regexSafe s.dataviewField = true →
        dvFirstCapture s.dataviewField.data content.data = some v →
        getTodayNumber (some content) s = String.mk (jsTrim v))
    ∧ (∀ s : BoxSettings, s.dataType = DataType.dataview →
        s.dataviewField = "MeditationMinutes" →
        getTodayNumber
          (some "Other:: 1\nMeditationMinutes:: 15\nMeditationMinutes:: 99\n")
          s = "15")
    ∧ (∀ s : BoxSettings, s.dataType = DataType.dataview →
        s.dataviewField = "MeditationMinutes" →
        getTodayNumber (some "MeditationMinutes:: 15\rOther:: 2\n") s
          = "15") := by
  refine ⟨?_, ?_, ?_, ?_, ?_⟩
  · intro s h1 h2
    have hm : dvFirstCapture "MeditationMinutes".data
        "MeditationMinutes:: 15\n".data = some "15".data := by decide
    simp only [getTodayNumber, h1, h2, hm]
    decide
  · intro s content h1 _hsafe hnone
    simp only [getTodayNumber, h1, hnone]
  · intro s content v h1 _hsafe hsome
    simp only [getTodayNumber, h1, hsome]
  · intro s h1 h2
    have hm : dvFirstCapture "MeditationMinutes".data
        "Other:: 1\nMeditationMinutes:: 15\nMeditationMinutes:: 99\n".data =
        some "15".data := by decide
    simp only [getTodayNumber, h1, h2, hm]
    decide
  · intro s h1 h2
    have hm : dvFirstCapture "MeditationMinutes".data
        "MeditationMinutes:: 15\rOther:: 2\n".data = some "15".data := by decide
    simp only [getTodayNumber, h1, h2, hm]
    decide

/-- C6 witness: the scenario of the claim evaluated concretely. -/
theorem claim_C6_witness :
    getTodayNumber (some "MeditationMinutes:: 15\n")
      (mkSettings .dataview "MeditationMinutes" "N/A") = "15" :=
  claim_C6.1 _ rfl rfl

/-! ### Box manager (FloatingBoxManager.ts)

The registry this.boxes is a JavaScript object keyed by box ids,
modelled as an association list in insertion order (the ids are never
integer-like, so JavaScript preserves insertion order).  Each
FloatingBox is represented by its settings record: the constructor
copies the record it is given, getSettings returns a copy, and
updateSettings replaces the record by the spread merge, so for the
manager-level claims the box is exactly its settings value.  The
persisted mapping plugin.settings.boxes is carried alongside; the
saveData call itself writes it out unchanged. -/

/-- Registry lookup, this.boxes[id]. -/
def lookupBox : List (String × BoxSettings) → String → Option BoxSettings
  | [], _ => none
  | (k, v) :: rest, id => if k = id then some v else lookupBox rest id

/-- JavaScript object property assignment this.boxes[id] = box: replace
in place when the key exists, append otherwise. -/
def objSet : List (String × BoxSettings) → String → BoxSettings →
    List (String × BoxSettings)
  | [], k, v => [(k, v)]
  | (k0, v0) :: rest, k, v =>
    if k0 = k then (k, v) :: rest else (k0, v0) :: objSet rest k v

/-- Manager state: the registry and the persisted boxes mapping. -/
structure ManagerState where
  boxes : List (String × BoxSettings)
  persistedBoxes : List (String × BoxSettings)
deriving DecidableEq

/-- saveAllBoxesSettingsToPluginSettings: collect getSettings of every
registry entry (Object.entries preserves insertion order, getSettings
copies the value) into a fresh mapping and persist it. -/
def saveAllBoxesSettingsToPluginSettings (m : ManagerState) : ManagerState :=
  { m with persistedBoxes := m.boxes }

/-- FloatingBoxManager.updateOneBoxSettings: when the id is registered,
merge the incoming Partial(BoxSettings) into the live settings of that
box via FloatingBox.updateSettings, then persist the whole registry. -/
def updateOneBoxSettings (m : ManagerState) (boxId : String)
    (newSettings : BoxSettingsPatch) : ManagerState :=
  match lookupBox m.boxes boxId with
  | none => m
  | some s =>
    saveAllBoxesSettingsToPluginSettings
      { m with boxes := objSet m.boxes boxId (mergeSettings s newSettings) }

/-- FloatingBoxManager.generateUniqueId, with Date.now() supplied as
the now argument. -/
def generateUniqueId (now : Nat) : String := "box_" ++ toString now

/-- The reduce over Object.values(this.boxes) computing the lowest
current zIndex, with initial accumulator 100. -/
def lowestZIndex (m : ManagerState) : ℚ :=
  m.boxes.foldl (fun mn b => min mn b.2.zIndex) 100

/-- Result of createBox: the returned id, the manager state after the
call, and the caller-owned settings argument after the call (the source
assigns to settings.zIndex, mutating the caller record). -/
structure CreateBoxResult where
  newId : String
  state : ManagerState
  argAfter : BoxSettings
deriving DecidableEq

/-- FloatingBoxManager.createBox. -/
def createBox (m : ManagerState) (now : Nat) (settings : BoxSettings) :
    CreateBoxResult :=
  let id := generateUniqueId now
  let lowest := lowestZIndex m
  let newSettings := { settings with zIndex := lowest - 1 }
  let argAfter := { settings with zIndex := lowest - 1 }
  let withBox := { m with boxes := objSet m.boxes id newSettings }
  { newId := id
    state := saveAllBoxesSettingsToPluginSettings withBox
    argAfter := argAfter }

/-! ### Manager lemmas -/

theorem mergeSettings_empty (s : BoxSettings) : mergeSettings s emptyPatch = s := rfl

theorem objSet_lookup_self {l : List (String × BoxSettings)} {id : String}
    {s : BoxSettings} (h : lookupBox l id = some s) : objSet l id s = l := by
  induction l with
  | nil => simp [lookupBox] at h
  | cons kv rest ih =>
    obtain ⟨k, v⟩ := kv
    by_cases hk : k = id
    · subst hk
      have hv : v = s := by simpa [lookupBox] using h
      subst hv
      simp [objSet]
    · simp only [lookupBox, if_neg hk] at h
      simp [objSet, hk, ih h]

theorem lookupBox_objSet (l : List (String × BoxSettings)) (id : String)
    (v : BoxSettings) : lookupBox (objSet l id v) id = some v := by
  induction l with
  | nil => simp [objSet, lookupBox]
  | cons kv rest ih =>
    obtain ⟨k0, v0⟩ := kv
    by_cases hk : k0 = id
    · subst hk
      simp [objSet, lookupBox]
    · simp [objSet, hk, lookupBox, ih]

theorem foldl_min_le_init (l : List (String × BoxSettings)) (init : ℚ) :
    l.foldl (fun mn b => min mn b.2.zIndex) init ≤ init := by
  induction l generalizing init with
  | nil => simp
  | cons kv rest ih =>
    calc rest.foldl (fun mn b => min mn b.2.zIndex) (min init kv.2.zIndex)
        ≤ min init kv.2.zIndex := ih _
      _ ≤ init := min_le_left _ _

theorem foldl_min_le_mem {l : List (String × BoxSettings)} {init : ℚ}
    {p : String × BoxSettings} (h : p ∈ l) :
    l.foldl (fun mn b => min mn b.2.zIndex) init ≤ p.2.zIndex := by
  induction l generalizing init with
  | nil => simp at h
  | cons kv rest ih =>
    rcases List.mem_cons.mp h with h | h
    · subst h
      calc rest.foldl (fun mn b => min mn b.2.zIndex) (min init p.2.zIndex)
          ≤ min init p.2.zIndex := foldl_min_le_init _ _
        _ ≤ p.2.zIndex := min_le_right _ _
    · exact ih h

/-! ### Claims C7, C8, C10 about the manager -/

/-- A manager state whose persisted mapping is stale with respect to
the live registry (reachable mid-drag: onDragMove mutates the live
settings and the save only happens on drag end). -/
def staleManager : ManagerState :=
  { boxes := [("b", mkSettings .completedTasks "" "A")],
    persistedBoxes := [("b", mkSettings .completedTasks "" "B")] }

/-- A manager state whose persisted mapping equals the registry
snapshot, as after any completed save. -/
def syncManager : ManagerState :=
  { boxes := [("b", mkSettings .completedTasks "" "A")],
    persistedBoxes := [("b", mkSettings .completedTasks "" "A")] }

/-- C7 counterexample: in a state where the persisted mapping lags the
live registry, the call with the empty partial overwrites the persisted
mapping with the registry snapshot, so the persisted mapping changes. -/
theorem claim_C7_counterexample :
    (updateOneBoxSettings staleManager "b" emptyPatch).persistedBoxes ≠
      staleManager.persistedBoxes := by
  decide

/-- C7 (amended): updateOneBoxSettings with the empty partial leaves
the live registry unchanged and sets the persisted mapping to the
registry snapshot; in particular, whenever the persisted mapping
already equals the snapshot, it is unchanged. -/
theorem claim_C7 : ∀ (m : ManagerState) (boxId : String),
    (updateOneBoxSettings m boxId emptyPatch).boxes = m.boxes
    ∧ (m.persistedBoxes = m.boxes →
        (updateOneBoxSettings m boxId emptyPatch).persistedBoxes =
          m.persistedBoxes) := by
  intro m boxId
  cases h : lookupBox m.boxes boxId with
  | none =>
    constructor
    · simp [updateOneBoxSettings, h]
    · intro _
      simp [updateOneBoxSettings, h]
  | some s =>
    have hb : (updateOneBoxSettings m boxId emptyPatch).boxes = m.boxes := by
      simp [updateOneBoxSettings, h, saveAllBoxesSettingsToPluginSettings,
            mergeSettings_empty, objSet_lookup_self h]
    constructor
    · exact hb
    · intro hsync
      have hp : (updateOneBoxSettings m boxId emptyPatch).persistedBoxes =
          (updateOneBoxSettings m boxId emptyPatch).boxes := by
        simp [updateOneBoxSettings, h, saveAllBoxesSettingsToPluginSettings]
      rw [hp, hb, hsync]

/-- C7 witness: the amended theorem applied at an in-sync state, where
the persisted mapping is indeed unchanged by the empty update. -/
theorem claim_C7_witness :
    (updateOneBoxSettings syncManager "b" emptyPatch).persistedBoxes =
      syncManager.persistedBoxes :=
  (claim_C7 syncManager "b").2 rfl

/-- A manager state whose only box sits at zIndex 200 under the key
that a createBox call at timestamp 5 would generate (such registries
load from persisted data via loadBoxes). -/
def highZManager : ManagerState :=
  { boxes := [("box_5", { mkSettings .completedTasks "" "N/A" with zIndex := 200 })],
    persistedBoxes :=
      [("box_5", { mkSettings .completedTasks "" "N/A" with zIndex := 200 })] }

/-- C8 counterexample: at a registry whose only box has zIndex 200 and
id box_5, createBox at timestamp 5 produces the id box_5, which is
already registered (refuting uniqueness), and assigns zIndex 99 rather
than one less than the minimum existing zIndex, which would be 199
(the reduce seeds its minimum with 100). -/
theorem claim_C8_counterexample :
    (createBox highZManager 5 (mkSettings .dataview "f" "N/A")).newId = "box_5"
    ∧ "box_5" ∈ highZManager.boxes.map Prod.fst
    ∧ (createBox highZManager 5 (mkSettings .dataview "f" "N/A")).argAfter.zIndex
        = 99
    ∧ (99 : ℚ) ≠ 200 - 1 := by
  refine ⟨by decide, by decide, ?_, by norm_num⟩
  show lowestZIndex highZManager - 1 = 99
  have hlz : lowestZIndex highZManager = 100 := min_eq_left (by norm_num)
  rw [hlz]
  norm_num

/-- C8 (amended): createBox assigns the id box_ followed by the
timestamp (overwriting any registered box with that id rather than
guaranteeing freshness), assigns a zIndex of one less than the minimum
of 100 and the lowest existing zIndex, which is always strictly below
every existing zIndex and equals 99 on an empty registry, stores the
new box in the registry under the new id, persists the registry, and
returns the new id. -/
theorem claim_C8 : ∀ (m : ManagerState) (now : Nat) (s : BoxSettings),
    (createBox m now s).newId = generateUniqueId now
    ∧ (createBox m now s).state.boxes =
        objSet m.boxes (generateUniqueId now)
          { s with zIndex := lowestZIndex m - 1 }
    ∧ lookupBox (createBox m now s).state.boxes (generateUniqueId now) =
        some { s with zIndex := lowestZIndex m - 1 }
    ∧ (∀ p ∈ m.boxes, lowestZIndex m - 1 < p.2.zIndex)
    ∧ (m.boxes = [] → lowestZIndex m - 1 = 99)
    ∧ (createBox m now s).state.persistedBoxes =
        (createBox m now s).state.boxes := by
  intro m now s
  refine ⟨rfl, rfl, lookupBox_objSet _ _ _, ?_, ?_, rfl⟩
  · intro p hp
    have h1 : lowestZIndex m ≤ p.2.zIndex := foldl_min_le_mem hp
    linarith
  · intro he
    unfold lowestZIndex
    rw [he]
    norm_num [List.foldl]

/-- A registry with a single box at zIndex 40. -/
def lowZManager : ManagerState :=
  { boxes := [("b", { mkSettings .completedTasks "" "N/A" with zIndex := 40 })],
    persistedBoxes :=
      [("b", { mkSettings .completedTasks "" "N/A" with zIndex := 40 })] }

/-- C8 witness: the amended theorem applied at a concrete registry,
giving the returned id and the strict stacking bound at its box. -/
theorem claim_C8_witness :
    (createBox lowZManager 7 (mkSettings .dataview "g" "N/A")).newId = "box_7"
    ∧ lowestZIndex lowZManager - 1 <
        (("b", { mkSettings .completedTasks "" "N/A" with zIndex := 40 })
          : String × BoxSettings).2.zIndex := by
  have h := claim_C8 lowZManager 7 (mkSettings .dataview "g" "N/A")
  refine ⟨?_, ?_⟩
  · rw [h.1]
    decide
  · exact h.2.2.2.1 _ (by decide)

/-- A registry with a single box at zIndex 150 and nothing persisted. -/
def midZManager : ManagerState :=
  { boxes := [("a", { mkSettings .completedTasks "" "N/A" with zIndex := 150 })],
    persistedBoxes := [] }

/-- C10 counterexample: with one existing box at zIndex 150, the value
written into the caller settings record is 99, not one less than the
lowest existing zIndex, which would be 149. -/
theorem claim_C10_counterexample :
    (createBox midZManager 7
        { mkSettings .dataview "h" "N/A" with zIndex := 7 }).argAfter.zIndex = 99
    ∧ (99 : ℚ) ≠ 150 - 1 := by
  constructor
  · show lowestZIndex midZManager - 1 = 99
    have hlz : lowestZIndex midZManager = 100 := min_eq_left (by norm_num)
    rw [hlz]
    norm_num
  · norm_num

/-- C10 (amended): createBox mutates its argument, writing into its
zIndex field one less than the minimum of 100 and the lowest existing
zIndex (99 when the registry is empty), and leaves every other field of
the caller record unchanged. -/
theorem claim_C10 : ∀ (m : ManagerState) (now : Nat) (s : BoxSettings),
    (createBox m now s).argAfter.zIndex = lowestZIndex m - 1
    ∧ (m.boxes = [] → (createBox m now s).argAfter.zIndex = 99)
    ∧ (createBox m now s).argAfter.position = s.position
    ∧ (createBox m now s).argAfter.backgroundColor = s.backgroundColor
    ∧ (createBox m now s).argAfter.customBackgroundColor = s.customBackgroundColor
    ∧ (createBox m now s).argAfter.textColor = s.textColor
    ∧ (createBox m now s).argAfter.customTextColor = s.customTextColor
    ∧ (createBox m now s).argAfter.fontSize = s.fontSize
    ∧ (createBox m now s).argAfter.padding = s.padding
    ∧ (createBox m now s).argAfter.dataType = s.dataType
    ∧ (createBox m now s).argAfter.pageWordsPerPage = s.pageWordsPerPage
    ∧ (createBox m now s).argAfter.dataviewField = s.dataviewField
    ∧ (createBox m now s).argAfter.noDataMessage = s.noDataMessage
    ∧ (createBox m now s).argAfter.isBold = s.isBold
    ∧ (createBox m now s).argAfter.useDailyNote = s.useDailyNote
    ∧ (createBox m now s).argAfter.customNotePath = s.customNotePath
    ∧ (createBox m now s).argAfter.customScript = s.customScript := by
  intro m now s
  refine ⟨rfl, ?_, rfl, rfl, rfl, rfl, rfl, rfl, rfl, rfl, rfl, rfl, rfl, rfl,
    rfl, rfl, rfl⟩
  intro he
  show lowestZIndex m - 1 = 99
  unfold lowestZIndex
  rw [he]
  norm_num [List.foldl]

/-- The empty manager state. -/
def emptyManager : ManagerState := { boxes := [], persistedBoxes := [] }

/-- C10 witness: on the empty registry the caller record receives
zIndex 99. -/
theorem claim_C10_witness :
    (createBox emptyManager 3 (mkSettings .dataview "k" "N/A")).argAfter.zIndex
      = 99 :=
  (claim_C10 emptyManager 3 (mkSettings .dataview "k" "N/A")).2.1 rfl

/-! ### Widget pointer state machine (FloatingBox.ts, latest revision)

The transient interaction state of one FloatingBox, together with the
pieces of its settings and element geometry the handlers read and
write.  The element position is kept in sync with settings.position by
updatePosition, and onResizing writes the element width and height, so
the bounding rect is part of the state; its initial width and height
are whatever the browser laid out.  Pointer coordinates and sizes are
JavaScript numbers, modelled as rationals.  RESIZE_HANDLE is 8. -/

/-- The bounding client rect of the widget element. -/
structure Rect where
  left : ℚ
  top : ℚ
  width : ℚ
  height : ℚ
deriving DecidableEq

/-- Runtime state of one FloatingBox. -/
structure WidgetState where
  isDragging : Bool
  isResizing : Bool
  resizeEdge : Option String
  dragOffsetX : ℚ
  dragOffsetY : ℚ
  initialFontSize : Option ℚ
  initialMousePos : Option (ℚ × ℚ)
  posX : ℚ
  posY : ℚ
  fontSize : ℚ
  padding : ℚ
  rect : Rect
deriving DecidableEq

/-- FloatingBox.detectResizeEdge: classify the pointer position against
the 8-pixel bands of the element rect, corners first. -/
def detectResizeEdge (ex ey : ℚ) (box : Rect) : Option String :=
  let x := ex - box.left
  let y := ey - box.top
  if x < 8 ∧ y < 8 then some "nw"
  else if box.width - 8 < x ∧ y < 8 then some "ne"
  else if x < 8 ∧ box.height - 8 < y then some "sw"
  else if box.width - 8 < x ∧ box.height - 8 < y then some "se"
  else if x < 8 then some "w"
  else if box.width - 8 < x then some "e"
  else if y < 8 then some "n"
  else if box.height - 8 < y then some "s"
  else none

/-- FloatingBox.onBoxMouseDown: start a resize when the pointer is on
an edge band, otherwise start a drag and record the offset. -/
def onBoxMouseDown (ex ey : ℚ) (s : WidgetState) : WidgetState :=
  match detectResizeEdge ex ey s.rect with
  | some edge =>
    { s with isResizing := true, resizeEdge := some edge,
             initialFontSize := some s.fontSize,
             initialMousePos := some (ex, ey) }
  | none =>
    { s with isDragging := true,
             dragOffsetX := ex - s.posX, dragOffsetY := ey - s.posY }

/-- FloatingBox.onDragStart for a MouseEvent: bail out on a resize
handle, otherwise start dragging and record the offset. -/
def onDragStartMouse (ex ey : ℚ) (s : WidgetState) : WidgetState :=
  match detectResizeEdge ex ey s.rect with
  | some _ => s
  | none =>
    { s with isDragging := true,
             dragOffsetX := ex - s.posX, dragOffsetY := ey - s.posY }

/-- FloatingBox.onDragStart for a TouchEvent: the resize-handle check
is skipped (it only runs for MouseEvent); a two-finger pinch bails
out, otherwise dragging starts from the first touch point. -/
def onDragStartTouch (pinch : Bool) (tx ty : ℚ) (s : WidgetState) : WidgetState :=
  if pinch then s
  else
    { s with isDragging := true,
             dragOffsetX := tx - s.posX, dragOffsetY := ty - s.posY }

/-- FloatingBox.onDragMove: while dragging, the new top-left is the
pointer position minus the recorded offset, written to settings and,
via updatePosition, to the element. -/
def onDragMove (ex ey : ℚ) (s : WidgetState) : WidgetState :=
  if s.isDragging then
    let px := ex - s.dragOffsetX
    let py := ey - s.dragOffsetY
    { s with posX := px, posY := py,
             rect := { s.rect with left := px, top := py } }
  else s

/-- FloatingBox.onDragEnd. -/
def onDragEnd (s : WidgetState) : WidgetState :=
  if s.isDragging then { s with isDragging := false } else s

/-- FloatingBox.onResizeEnd. -/
def onResizeEnd (s : WidgetState) : WidgetState :=
  if s.isResizing then
    { s with isResizing := false, resizeEdge := none,
             initialFontSize := none, initialMousePos := none }
  else s

/-- MIN_SIZE in onResizing: twice the padding plus twice the handle. -/
def resizeMinSize (s : WidgetState) : ℚ := s.padding * 2 + 8 * 2

/-- The element center read in onResizing. -/
def resizeCenter (s : WidgetState) : ℚ × ℚ :=
  (s.rect.left + s.rect.width / 2, s.rect.top + s.rect.height / 2)

/-- The mouse position adjusted by the handle offset in the direction
of the active edge (edge.includes of w, e, n, s in the source). -/
def resizeAdjusted (ex ey : ℚ) (edge : String) : ℚ × ℚ :=
  (if edge.data.contains 'w' then ex - 8
   else if edge.data.contains 'e' then ex + 8 else ex,
   if edge.data.contains 'n' then ey - 8
   else if edge.data.contains 's' then ey + 8 else ey)

/-- newSizeRaw in onResizing: twice the larger axis distance from the
adjusted pointer to the center. -/
def resizeNewSizeRaw (ex ey : ℚ) (s : WidgetState) (edge : String) : ℚ :=
  max |(resizeAdjusted ex ey edge).1 - (resizeCenter s).1|
      |(resizeAdjusted ex ey edge).2 - (resizeCenter s).2| * 2

/-- FloatingBox.onResizing.  The early return models the JavaScript
falsiness guard: missing or zero initialFontSize, missing
initialMousePos, missing or empty resizeEdge, or not resizing.  Inside
the size-window guard the element is resized square, the font size is
rescaled proportionally to the available interior space, clamped to at
least 12 and at most 72 percent of the available space, rounded, and
the position is recomputed so the center stays fixed. -/
def onResizing (ex ey : ℚ) (s : WidgetState) : WidgetState :=
  match s.initialFontSize, s.initialMousePos, s.resizeEdge with
  | some f0, some _, some edge =>
    if s.isResizing = true ∧ f0 ≠ 0 ∧ edge ≠ "" then
      let newSizeRaw := resizeNewSizeRaw ex ey s edge
      let newSize := min (max (resizeMinSize s) newSizeRaw) 1000
      if resizeMinSize s ≤ newSizeRaw ∧ newSizeRaw ≤ 1000 then
        let availableSpace := newSize - s.padding * 2
        let scaleFactor := availableSpace / (resizeMinSize s - s.padding * 2)
        let newFontSize :=
          max 12 (min (f0 * scaleFactor) (availableSpace * (72 / 100)))
        let px := (resizeCenter s).1 - newSize / 2
        let py := (resizeCenter s).2 - newSize / 2
        { s with
            rect := { left := px, top := py, width := newSize, height := newSize },
            fontSize := jsRound newFontSize,
            posX := px, posY := py }
      else s
    else s
  | _, _, _ => s

/-- The pointer and touch events the widget listens to. -/
inductive WEvent where
  | mouseDown (x y : ℚ)
  | mouseMove (x y : ℚ)
  | mouseUp
  | touchStart (pinch : Bool) (x y : ℚ)
  | touchMove (x y : ℚ)
  | touchEnd
deriving DecidableEq

/-- One event dispatch, composing the listeners in attachment order:
a mousedown on the element runs onBoxMouseDown then onDragStart; the
document mousemove lambda resizes when resizing else drags when
dragging; a mouseup runs onResizeEnd then onDragEnd; touchmove runs
onDragMove and touchend runs onDragEnd. -/
def step (s : WidgetState) : WEvent → WidgetState
  | .mouseDown x y => onDragStartMouse x y (onBoxMouseDown x y s)
  | .mouseMove x y =>
    if s.isResizing then onResizing x y s
    else if s.isDragging then onDragMove x y s
    else s
  | .mouseUp => onDragEnd (onResizeEnd s)
  | .touchStart pinch x y => onDragStartTouch pinch x y s
  | .touchMove x y => onDragMove x y s
  | .touchEnd => onDragEnd s

/-- Run a sequence of events. -/
def run (s : WidgetState) (evs : List WEvent) : WidgetState :=
  evs.foldl step s

/-- The well-formedness condition of the spec state machine: every
pointer-down (mouse-down or touch-start) arrives in the Idle state. -/
def downsFromIdle : WidgetState → List WEvent → Bool
  | _, [] => true
  | s, e :: es =>
    (match e with
     | .mouseDown _ _ => !s.isDragging && !s.isResizing
     | .touchStart _ _ _ => !s.isDragging && !s.isResizing
     | _ => true) && downsFromIdle (step s e) es

/-- A freshly constructed widget: idle, with the given position, laid
out element size, font size and padding. -/
def mkIdleWidget (x y w h fs pad : ℚ) : WidgetState :=
  { isDragging := false, isResizing := false, resizeEdge := none,
    dragOffsetX := 0, dragOffsetY := 0, initialFontSize := none,
    initialMousePos := none, posX := x, posY := y, fontSize := fs,
    padding := pad, rect := ⟨x, y, w, h⟩ }

/-! ### Flag behaviour of the handlers -/

theorem onResizing_flags (ex ey : ℚ) (s : WidgetState) :
    (onResizing ex ey s).isDragging = s.isDragging ∧
    (onResizing ex ey s).isResizing = s.isResizing := by
  cases hf : s.initialFontSize with
  | none => simp [onResizing, hf]
  | some f0 =>
    cases hm : s.initialMousePos with
    | none => simp [onResizing, hf, hm]
    | some mp =>
      cases he : s.resizeEdge with
      | none => simp [onResizing, hf, hm, he]
      | some ed =>
        simp only [onResizing, hf, hm, he]
        split_ifs <;> simp

theorem onDragMove_flags (ex ey : ℚ) (s : WidgetState) :
    (onDragMove ex ey s).isDragging = s.isDragging ∧
    (onDragMove ex ey s).isResizing = s.isResizing := by
  unfold onDragMove
  split_ifs <;> simp

theorem onDragEnd_flags (s : WidgetState) :
    (onDragEnd s).isDragging = false ∧
    (onDragEnd s).isResizing = s.isResizing := by
  unfold onDragEnd
  split_ifs with h <;> simp [h]

theorem onResizeEnd_flags (s : WidgetState) :
    (onResizeEnd s).isResizing = false ∧
    (onResizeEnd s).isDragging = s.isDragging := by
  unfold onResizeEnd
  split_ifs with h <;> simp [h]

/-! ### Claims C3, C4, C5, C9 about the widget -/

/-- C3 counterexample: a mouse-down on the top-left resize band makes
the widget resizing; a touch-start while the mouse button is still
held skips the resize-handle check (it only runs for MouseEvent), so
after the two-event sequence isDragging and isResizing are both true,
refuting mutual exclusion over arbitrary event sequences. -/
theorem claim_C3_counterexample :
    (run (mkIdleWidget 100 100 50 50 16 8)
        [WEvent.mouseDown 101 101, WEvent.touchStart false 120 120]).isDragging
        = true
    ∧ (run (mkIdleWidget 100 100 50 50 16 8)
        [WEvent.mouseDown 101 101, WEvent.touchStart false 120 120]).isResizing
        = true := by
  have hedge : detectResizeEdge 101 101 (mkIdleWidget 100 100 50 50 16 8).rect
      = some "nw" := by
    unfold detectResizeEdge mkIdleWidget
    norm_num
  constructor <;>
    simp [run, step, onBoxMouseDown, onDragStartMouse, onDragStartTouch, hedge]

/-- C3 (amended): isDragging and isResizing are mutually exclusive in
every state reached by an event sequence in which each pointer-down
(mouse-down or touch-start) occurs in the Idle state, as the spec
state machine prescribes for entering Dragging or Resizing; without
that proviso a touch-start (or second mouse-down) during an active
resize makes both flags true. -/
theorem claim_C3 : ∀ (evs : List WEvent) (s : WidgetState),
    (s.isDragging = false ∨ s.isResizing = false) →
    downsFromIdle s evs = true →
    ((run s evs).isDragging = false ∨ (run s evs).isResizing = false) := by
  intro evs
  induction evs with
  | nil => intro s hP _; exact hP
  | cons e es ih =>
    intro s hP hwf
    have hstep : ((step s e).isDragging = false ∨ (step s e).isResizing = false)
        ∧ downsFromIdle (step s e) es = true := by
      cases e with
      | mouseDown x y =>
        simp only [downsFromIdle, Bool.and_eq_true, Bool.not_eq_true'] at hwf
        obtain ⟨⟨hd, hr⟩, htail⟩ := hwf
        refine ⟨?_, htail⟩
        cases hdet : detectResizeEdge x y s.rect with
        | some ed =>
          left
          simp [step, onBoxMouseDown, onDragStartMouse, hdet, hd]
        | none =>
          right
          simp [step, onBoxMouseDown, onDragStartMouse, hdet, hr]
      | mouseMove x y =>
        simp only [downsFromIdle, Bool.true_and] at hwf
        refine ⟨?_, hwf⟩
        by_cases hr : s.isResizing = true
        · have hstep : step s (WEvent.mouseMove x y) = onResizing x y s := by
            simp only [step, if_pos hr]
          rcases hP with hP | hP
          · left; rw [hstep, (onResizing_flags x y s).1]; exact hP
          · right; rw [hstep, (onResizing_flags x y s).2]; exact hP
        · by_cases hd : s.isDragging = true
          · have hstep : step s (WEvent.mouseMove x y) = onDragMove x y s := by
              simp only [step, if_neg hr, if_pos hd]
            rcases hP with hP | hP
            · left; rw [hstep, (onDragMove_flags x y s).1]; exact hP
            · right; rw [hstep, (onDragMove_flags x y s).2]; exact hP
          · have hstep : step s (WEvent.mouseMove x y) = s := by
              simp only [step, if_neg hr, if_neg hd]
            rw [hstep]
            exact hP
      | mouseUp =>
        simp only [downsFromIdle, Bool.true_and] at hwf
        refine ⟨?_, hwf⟩
        right
        show (onDragEnd (onResizeEnd s)).isResizing = false
        rw [(onDragEnd_flags _).2, (onResizeEnd_flags s).1]
      | touchStart pinch x y =>
        simp only [downsFromIdle, Bool.and_eq_true, Bool.not_eq_true'] at hwf
        obtain ⟨⟨_, hr⟩, htail⟩ := hwf
        refine ⟨?_, htail⟩
        right
        by_cases hp : pinch
        · simpa [step, onDragStartTouch, hp] using hr
        · simpa [step, onDragStartTouch, hp] using hr
      | touchMove x y =>
        simp only [downsFromIdle, Bool.true_and] at hwf
        refine ⟨?_, hwf⟩
        rcases hP with hP | hP
        · left
          show (onDragMove x y s).isDragging = false
          rw [(onDragMove_flags x y s).1]
          exact hP
        · right
          show (onDragMove x y s).isResizing = false
          rw [(onDragMove_flags x y s).2]
          exact hP
      | touchEnd =>
        simp only [downsFromIdle, Bool.true_and] at hwf
        refine ⟨?_, hwf⟩
        left
        exact (onDragEnd_flags s).1
    exact ih (step s e) hstep.1 hstep.2

/-- C3 witness: the amended theorem applied to a well-formed concrete
sequence consisting of one touch drag. -/
theorem claim_C3_witness :
    ((run (mkIdleWidget 0 0 50 50 16 8)
        [WEvent.touchStart false 5 5, WEvent.touchEnd]).isDragging = false
    ∨ (run (mkIdleWidget 0 0 50 50 16 8)
        [WEvent.touchStart false 5 5, WEvent.touchEnd]).isResizing = false) :=
  claim_C3 [WEvent.touchStart false 5 5, WEvent.touchEnd]
    (mkIdleWidget 0 0 50 50 16 8) (Or.inl rfl) (by decide)

/-- During a drag (dragging set, not resizing, fixed recorded offset),
a nonempty run of mouse moves leaves the box top-left at the last
pointer position minus the offset. -/
theorem run_moves_pos (offX offY : ℚ) :
    ∀ (moves : List (ℚ × ℚ)) (hne : moves ≠ []) (t : WidgetState),
    t.isDragging = true → t.isResizing = false →
    t.dragOffsetX = offX → t.dragOffsetY = offY →
    (run t (moves.map (fun p => WEvent.mouseMove p.1 p.2))).posX =
        (moves.getLast hne).1 - offX
    ∧ (run t (moves.map (fun p => WEvent.mouseMove p.1 p.2))).posY =
        (moves.getLast hne).2 - offY := by
  intro moves
  induction moves with
  | nil => intro hne; exact absurd rfl hne
  | cons m ms ih =>
    intro hne t hd hr hox hoy
    have hr' : ¬ t.isResizing = true := by
      rw [hr]; exact Bool.false_ne_true
    have hstep : step t (WEvent.mouseMove m.1 m.2) = onDragMove m.1 m.2 t := by
      simp only [step, if_neg hr', if_pos hd]
    have hmove : onDragMove m.1 m.2 t =
        { t with posX := m.1 - t.dragOffsetX, posY := m.2 - t.dragOffsetY,
                 rect := { t.rect with left := m.1 - t.dragOffsetX,
                                       top := m.2 - t.dragOffsetY } } := by
      simp [onDragMove, hd]
    cases ms with
    | nil =>
      simp only [List.map, run, List.foldl, List.getLast]
      rw [hstep, hmove]
      refine ⟨?_, ?_⟩ <;> simp [hox, hoy]
    | cons m2 ms2 =>
      have hrun : run t ((m :: m2 :: ms2).map (fun p => WEvent.mouseMove p.1 p.2))
          = run (onDragMove m.1 m.2 t)
              ((m2 :: ms2).map (fun p => WEvent.mouseMove p.1 p.2)) := by
        simp only [List.map, run, List.foldl, hstep]
      have hlast : (m :: m2 :: ms2).getLast hne =
          (m2 :: ms2).getLast (List.cons_ne_nil m2 ms2) := by
        simp [List.getLast]
      rw [hrun, hlast]
      exact ih (List.cons_ne_nil m2 ms2) (onDragMove m.1 m.2 t)
        (by rw [hmove]; exact hd) (by rw [hmove]; exact hr)
        (by rw [hmove]; exact hox) (by rw [hmove]; exact hoy)

/-- C5: dragging is offset-invariant.  From an idle widget, a
mouse-down at a point off every resize band followed by any nonempty
sequence of mouse moves leaves the box top-left at the last pointer
position minus the offset recorded at the mouse-down. -/
theorem claim_C5 : ∀ (s : WidgetState) (px py : ℚ) (moves : List (ℚ × ℚ))
    (hne : moves ≠ []),
    s.isDragging = false → s.isResizing = false →
    detectResizeEdge px py s.rect = none →
    (run s (WEvent.mouseDown px py ::
        moves.map (fun p => WEvent.mouseMove p.1 p.2))).posX =
      (moves.getLast hne).1 - (px - s.posX)
    ∧ (run s (WEvent.mouseDown px py ::
        moves.map (fun p => WEvent.mouseMove p.1 p.2))).posY =
      (moves.getLast hne).2 - (py - s.posY) := by
  intro s px py moves hne _hd hr hedge
  have hmd : step s (WEvent.mouseDown px py) =
      { s with isDragging := true,
               dragOffsetX := px - s.posX, dragOffsetY := py - s.posY } := by
    simp [step, onBoxMouseDown, onDragStartMouse, hedge]
  have hrun : run s (WEvent.mouseDown px py ::
      moves.map (fun p => WEvent.mouseMove p.1 p.2)) =
      run { s with isDragging := true,
                   dragOffsetX := px - s.posX, dragOffsetY := py - s.posY }
        (moves.map (fun p => WEvent.mouseMove p.1 p.2)) := by
    simp only [run, List.foldl, hmd]
  rw [hrun]
  exact run_moves_pos (px - s.posX) (py - s.posY) moves hne _ rfl hr rfl rfl

/-- C5 witness: a concrete drag from (100,100) grabbed at (130,110)
and moved to (200,220) puts the box at (170,210). -/
theorem claim_C5_witness :
    (run (mkIdleWidget 100 100 50 50 16 8)
        [WEvent.mouseDown 130 110, WEvent.mouseMove 200 220]).posX
      = 200 - (130 - 100)
    ∧ (run (mkIdleWidget 100 100 50 50 16 8)
        [WEvent.mouseDown 130 110, WEvent.mouseMove 200 220]).posY
      = 220 - (110 - 100) := by
  have h := claim_C5 (mkIdleWidget 100 100 50 50 16 8) 130 110 [(200, 220)]
    (by simp) rfl rfl
    (by unfold detectResizeEdge mkIdleWidget; norm_num)
  simpa using h

/-- Math.round of a value at least 12 is at least 12. -/
theorem jsRound_ge {q : ℚ} (h : 12 ≤ q) : (12 : ℚ) ≤ jsRound q := by
  unfold jsRound
  have h1 : (12 : ℤ) ≤ ⌊q + 1/2⌋ := Int.le_floor.mpr (by push_cast; linarith)
  exact_mod_cast h1

/-- Math.round exceeds its argument by at most one half. -/
theorem jsRound_le_half (q : ℚ) : jsRound q ≤ q + 1/2 := by
  unfold jsRound
  exact Int.floor_le _

/-- C4: whenever a resize-move event passes the guards and updates the
box (resizing active with a valid recorded state and newSizeRaw inside
the size window), the resulting element is square with side between
MIN_SIZE and 1000, and MIN_SIZE is twice the padding plus 16. -/
theorem claim_C4 : ∀ (ex ey : ℚ) (s : WidgetState) (f0 : ℚ) (mp : ℚ × ℚ)
    (edge : String),
    s.initialFontSize = some f0 → f0 ≠ 0 →
    s.initialMousePos = some mp →
    s.resizeEdge = some edge → edge ≠ "" →
    s.isResizing = true →
    resizeMinSize s ≤ resizeNewSizeRaw ex ey s edge →
    resizeNewSizeRaw ex ey s edge ≤ 1000 →
    ((onResizing ex ey s).rect.width = (onResizing ex ey s).rect.height
    ∧ resizeMinSize s ≤ (onResizing ex ey s).rect.width
    ∧ (onResizing ex ey s).rect.width ≤ 1000
    ∧ resizeMinSize s = 2 * s.padding + 16) := by
  intro ex ey s f0 mp edge hf hf0 hm he hedge hres hlow hhigh
  have hclamp : min (max (resizeMinSize s) (resizeNewSizeRaw ex ey s edge)) 1000
      = resizeNewSizeRaw ex ey s edge := by
    rw [max_eq_right hlow, min_eq_left hhigh]
  have hw : (onResizing ex ey s).rect.width = resizeNewSizeRaw ex ey s edge := by
    simp only [onResizing, hf, hm, he]
    rw [if_pos ⟨hres, hf0, hedge⟩, if_pos ⟨hlow, hhigh⟩]
    exact hclamp
  have hh : (onResizing ex ey s).rect.height = resizeNewSizeRaw ex ey s edge := by
    simp only [onResizing, hf, hm, he]
    rw [if_pos ⟨hres, hf0, hedge⟩, if_pos ⟨hlow, hhigh⟩]
    exact hclamp
  refine ⟨hw.trans hh.symm, ?_, ?_, ?_⟩
  · rw [hw]; exact hlow
  · rw [hw]; exact hhigh
  · unfold resizeMinSize; ring

/-- A widget mid-resize: south-east handle grabbed, element 50 by 50 at
(100,100), font 16, padding 8. -/
def resizingWidget : WidgetState :=
  { isDragging := false, isResizing := true, resizeEdge := some "se",
    dragOffsetX := 0, dragOffsetY := 0, initialFontSize := some 16,
    initialMousePos := some (0, 0), posX := 100, posY := 100, fontSize := 16,
    padding := 8, rect := ⟨100, 100, 50, 50⟩ }

/-- The guard bounds of the resize claims at the concrete witness
event: the raw size works out to 166, inside the window [32, 1000]. -/
theorem resizingWidget_raw :
    resizeNewSizeRaw 200 150 resizingWidget "se" = 166 := by
  have hcw : ("se".data.contains 'w') = false := by decide
  have hce : ("se".data.contains 'e') = true := by decide
  have hcn : ("se".data.contains 'n') = false := by decide
  have hcs : ("se".data.contains 's') = true := by decide
  unfold resizeNewSizeRaw resizeAdjusted resizeCenter resizingWidget
  rw [hcw, hce, hcn, hcs]
  norm_num [abs_of_pos]

/-- C4 witness: the theorem applied to the concrete resize-move. -/
theorem claim_C4_witness :
    (onResizing 200 150 resizingWidget).rect.width =
      (onResizing 200 150 resizingWidget).rect.height
    ∧ resizeMinSize resizingWidget ≤ (onResizing 200 150 resizingWidget).rect.width
    ∧ (onResizing 200 150 resizingWidget).rect.width ≤ 1000 := by
  have h := claim_C4 200 150 resizingWidget 16 (0, 0) "se" rfl (by norm_num) rfl
    rfl (by decide) rfl
    (by rw [resizingWidget_raw]; unfold resizeMinSize resizingWidget; norm_num)
    (by rw [resizingWidget_raw]; norm_num)
  exact ⟨h.1, h.2.1, h.2.2.1⟩

/-- C9: whenever a resize-move event passes the guards and updates the
box, the resulting rounded font size is at least the minimum readable
size 12 and at most 80 percent of the available interior space (the
box side minus twice the padding); the unrounded value is capped at 72
percent and the half-unit rounding slack stays inside the 80 percent
envelope because the available space is at least 16. -/
theorem claim_C9 : ∀ (ex ey : ℚ) (s : WidgetState) (f0 : ℚ) (mp : ℚ × ℚ)
    (edge : String),
    s.initialFontSize = some f0 → f0 ≠ 0 →
    s.initialMousePos = some mp →
    s.resizeEdge = some edge → edge ≠ "" →
    s.isResizing = true →
    resizeMinSize s ≤ resizeNewSizeRaw ex ey s edge →
    resizeNewSizeRaw ex ey s edge ≤ 1000 →
    ((12 : ℚ) ≤ (onResizing ex ey s).fontSize
    ∧ (onResizing ex ey s).fontSize ≤
        (8 / 10) * ((onResizing ex ey s).rect.width - 2 * s.padding)) := by
  intro ex ey s f0 mp edge hf hf0 hm he hedge hres hlow hhigh
  have hclamp : min (max (resizeMinSize s) (resizeNewSizeRaw ex ey s edge)) 1000
      = resizeNewSizeRaw ex ey s edge := by
    rw [max_eq_right hlow, min_eq_left hhigh]
  have hw : (onResizing ex ey s).rect.width = resizeNewSizeRaw ex ey s edge := by
    simp only [onResizing, hf, hm, he]
    rw [if_pos ⟨hres, hf0, hedge⟩, if_pos ⟨hlow, hhigh⟩]
    exact hclamp
  have hfont : (onResizing ex ey s).fontSize =
      jsRound (max 12 (min
        (f0 * ((resizeNewSizeRaw ex ey s edge - s.padding * 2) /
          (resizeMinSize s - s.padding * 2)))
        ((resizeNewSizeRaw ex ey s edge - s.padding * 2) * (72 / 100)))) := by
    simp only [onResizing, hf, hm, he]
    rw [if_pos ⟨hres, hf0, hedge⟩, if_pos ⟨hlow, hhigh⟩, hclamp]
  set R := resizeNewSizeRaw ex ey s edge with hR
  set A := R - s.padding * 2 with hA
  have hminsize : resizeMinSize s = s.padding * 2 + 16 := by
    unfold resizeMinSize; ring
  have hA16 : (16 : ℚ) ≤ A := by
    rw [hminsize] at hlow
    rw [hA]
    linarith
  constructor
  · rw [hfont]
    exact jsRound_ge (le_max_left _ _)
  · rw [hfont, hw]
    have h1 := jsRound_le_half (max 12 (min
        (f0 * (A / (resizeMinSize s - s.padding * 2))) (A * (72 / 100))))
    have h2 : max (12 : ℚ) (min
        (f0 * (A / (resizeMinSize s - s.padding * 2))) (A * (72 / 100)))
        ≤ max 12 (A * (72 / 100)) :=
      max_le_max (le_refl _) (min_le_right _ _)
    have h3 : max (12 : ℚ) (A * (72 / 100)) ≤ (8 / 10) * A - 1 / 2 :=
      max_le (by linarith) (by linarith)
    have h4 : (8 / 10 : ℚ) * (R - 2 * s.padding) = (8 / 10) * A := by
      rw [hA]; ring
    rw [h4]
    linarith

/-- C9 witness: the theorem applied to the concrete resize-move; the
resulting font size lies in the claimed window. -/
theorem claim_C9_witness :
    (12 : ℚ) ≤ (onResizing 200 150 resizingWidget).fontSize
    ∧ (onResizing 200 150 resizingWidget).fontSize ≤
        (8 / 10) * ((onResizing 200 150 resizingWidget).rect.width
          - 2 * resizingWidget.padding) :=
  claim_C9 200 150 resizingWidget 16 (0, 0) "se" rfl (by norm_num) rfl
    rfl (by decide) rfl
    (by rw [resizingWidget_raw]; unfold resizeMinSize resizingWidget; norm_num)
    (by rw [resizingWidget_raw]; norm_num)

end FloatingNumber
